import Mathlib

/-!
Verification of the BLE HID-relay host (files `main.py` and `monitor_ble.py`).

The development shallowly embeds the pure and state-manipulating parts of the
two entry points:

* the chunker `sliced` (identical in both files),
* the scan filters `match_hid_device` (main.py) and `match_nus_uuid`
  (monitor_ble.py),
* the `BleManager` lifecycle (`connect_and_run`, the `_run_loop` supervisor,
  `send_data_sync` / `_send_data`),
* the event encoders (`keyPressEvent`, mouse handlers) and the coordinate
  normalization of `mousePressEvent` / `get_video_display_rect`.

Byte strings and text are modelled as `List Char` (all protocol text is
ASCII, so `str.encode()` is the identity on the character sequence).
Machine integers are `Nat`/`Int`; Python float arithmetic in the coordinate
normalization is modelled with exact rationals.
-/

/-! ### Chunker

Source (both files):
`def sliced(data, n): return takewhile(len, (data[i : i + n] for i in count(0, n)))`

The generator yields the slices `data[0:n], data[n:2n], ...` and stops at the
first empty slice.  For `n > 0` each yielded slice consumes `n` elements of
the remaining data, so the iteration is realized below by structural
recursion with a fuel bounded by `data.length` (each step removes at least
one element); `n = 0` yields nothing because the very first slice
`data[0:0]` is already empty. -/

def slicedFuel {α : Type} : Nat → List α → Nat → List (List α)
  | 0, _, _ => []
  | _ + 1, [], _ => []
  | f + 1, a :: d, n =>
      if n = 0 then [] else (a :: d).take n :: slicedFuel f ((a :: d).drop n) n

def sliced {α : Type} (data : List α) (n : Nat) : List (List α) :=
  slicedFuel data.length data n

theorem slicedFuel_nil {α : Type} (f n : Nat) :
    slicedFuel (α := α) f [] n = [] := by
  cases f <;> rfl

theorem slicedFuel_flatten {α : Type} :
    ∀ (f : Nat) (d : List α) (n : Nat), d.length ≤ f → 0 < n →
      (slicedFuel f d n).flatten = d := by
  intro f
  induction f with
  | zero =>
      intro d n hd _
      have : d = [] := List.eq_nil_of_length_eq_zero (Nat.le_zero.mp hd)
      subst this; rfl
  | succ f ih =>
      intro d n hd hn
      match d with
      | [] => rfl
      | a :: d =>
          have hn0 : n ≠ 0 := Nat.pos_iff_ne_zero.mp hn
          have hlen : ((a :: d).drop n).length ≤ f := by
            rw [List.length_drop]
            simp only [List.length_cons] at hd ⊢
            omega
          simp only [slicedFuel, hn0, if_false, List.flatten_cons]
          rw [ih _ n hlen hn, List.take_append_drop]

theorem slicedFuel_mem_ne_nil {α : Type} :
    ∀ (f : Nat) (d : List α) (n : Nat),
      ∀ c ∈ slicedFuel f d n, c ≠ [] := by
  intro f
  induction f with
  | zero => intro d n c hc; cases hc
  | succ f ih =>
      intro d n c hc
      match d with
      | [] => cases hc
      | a :: d =>
          by_cases hn0 : n = 0
          · simp only [slicedFuel, hn0, if_true] at hc
            cases hc
          · simp only [slicedFuel, hn0, if_false] at hc
            rcases List.mem_cons.mp hc with rfl | hmem
            · intro hemp
              have h0 : (List.take n (a :: d)).length = 0 := by rw [hemp]; rfl
              rw [List.length_take] at h0
              simp only [List.length_cons] at h0
              omega
            · exact ih _ n c hmem

theorem slicedFuel_mem_length_le {α : Type} :
    ∀ (f : Nat) (d : List α) (n : Nat),
      ∀ c ∈ slicedFuel f d n, c.length ≤ n := by
  intro f
  induction f with
  | zero => intro d n c hc; cases hc
  | succ f ih =>
      intro d n c hc
      match d with
      | [] => cases hc
      | a :: d =>
          by_cases hn0 : n = 0
          · simp only [slicedFuel, hn0, if_true] at hc
            cases hc
          · simp only [slicedFuel, hn0, if_false] at hc
            rcases List.mem_cons.mp hc with rfl | hmem
            · rw [List.length_take]
              exact Nat.min_le_left _ _
            · exact ih _ n c hmem

theorem slicedFuel_dropLast {α : Type} :
    ∀ (f : Nat) (d : List α) (n : Nat),
      ∀ c ∈ (slicedFuel f d n).dropLast, c.length = n := by
  intro f
  induction f with
  | zero => intro d n c hc; cases hc
  | succ f ih =>
      intro d n c hc
      match d with
      | [] => cases hc
      | a :: d =>
          by_cases hn0 : n = 0
          · simp only [slicedFuel, hn0, if_true] at hc
            cases hc
          · simp only [slicedFuel, hn0, if_false] at hc
            by_cases hrest : slicedFuel f ((a :: d).drop n) n = []
            · rw [hrest] at hc
              cases hc
            · rw [List.dropLast_cons_of_ne_nil hrest] at hc
              rcases List.mem_cons.mp hc with rfl | hmem
              · have hdrop : (a :: d).drop n ≠ [] := by
                  intro h
                  rw [h, slicedFuel_nil] at hrest
                  exact hrest rfl
                have hlt : n < (a :: d).length := by
                  by_contra hge
                  exact hdrop (List.drop_eq_nil_of_le (Nat.le_of_not_lt hge))
                rw [List.length_take]
                omega
              · exact ih _ n c hmem

/-- C1: for every payload `P` and every `maxLen` `m > 0`, `sliced P m` is a
finite sequence of slices whose concatenation reproduces `P` exactly, every
chunk except possibly the last has length exactly `m`, every chunk is
non-empty and no longer than `m` (so the last holds the non-empty
remainder), and an empty payload yields the empty sequence. -/
theorem sliced_chunks_spec {α : Type} (P : List α) (m : Nat) (hm : 0 < m) :
    (sliced P m).flatten = P ∧
    (∀ c ∈ (sliced P m).dropLast, c.length = m) ∧
    (∀ c ∈ sliced P m, c ≠ [] ∧ c.length ≤ m) ∧
    (P = [] → sliced P m = []) := by
  refine ⟨slicedFuel_flatten P.length P m (Nat.le_refl _) hm,
          slicedFuel_dropLast P.length P m, ?_, ?_⟩
  · intro c hc
    exact ⟨slicedFuel_mem_ne_nil P.length P m c hc,
           slicedFuel_mem_length_le P.length P m c hc⟩
  · intro hP
    subst hP
    rfl

theorem sliced_chunks_spec_witness :
    0 < 2 ∧
    ((sliced [10, 20, 30, 40, 50] 2).flatten = [10, 20, 30, 40, 50] ∧
     (∀ c ∈ (sliced [10, 20, 30, 40, 50] 2).dropLast, c.length = 2) ∧
     (∀ c ∈ sliced [10, 20, 30, 40, 50] 2, c ≠ [] ∧ c.length ≤ 2) ∧
     (([10, 20, 30, 40, 50] : List Nat) = [] → sliced [10, 20, 30, 40, 50] 2 = [])) :=
  ⟨by decide, sliced_chunks_spec [10, 20, 30, 40, 50] 2 (by decide)⟩

/-! ### BleManager state and the `connect_and_run` session

`BleManager.__init__` (both files) sets `self.client = None`,
`self.connected = False`, `self.rx_char = None`.  Connection handles and
characteristics are modelled by `Nat` identifiers: a session that connects is
given a fresh identifier `c`, and the characteristic it resolves is tagged
with the same `c` (`rx_char = some c` means "the RX characteristic of
connection `c`"). -/

structure BleState where
  client : Option Nat
  connected : Bool
  rx_char : Option Nat
  deriving DecidableEq

def initBleState : BleState := ⟨none, false, none⟩

/-- The ways one `connect_and_run` coroutine can finish, read off the source:

* `scanTimeout` — `find_device_by_filter` returned `None` and the coroutine
  executes `return` (normal return, main.py line 81);
* `connectFail` — `async with BleakClient(...)` raises on entry (the
  exception propagates out of `connect_and_run`);
* `notifyFail` — `client.start_notify` (or the service/characteristic
  lookup) raises after `self.client`/`self.connected` were already assigned;
  the inner `try/finally` has not been entered yet, so no cleanup runs and
  the exception propagates;
* `serveExit` — the `await asyncio.sleep(1.0)` loop is cancelled (disconnect
  callback or host shutdown); `except asyncio.CancelledError: pass` swallows
  it, the `finally` block runs, and the coroutine returns normally. -/
inductive ExitPath
  | scanTimeout
  | connectFail
  | notifyFail
  | serveExit
  deriving DecidableEq

/-- The successive values of `(client, connected, rx_char)` observable after
each assignment executed by `connect_and_run` for a session with connection
identifier `c`, starting from state `st`, on each exit path.  The order of
assignments is taken verbatim from the source: `self.client = client` then
`self.connected = True` (lines 91-92), `self.rx_char = ...` (line 101), and
in the `finally` block `self.connected = False` then `self.client = None`
(lines 110-111). -/
def sessionStates (c : Nat) (st : BleState) : ExitPath → List BleState
  | .scanTimeout => []
  | .connectFail => []
  | .notifyFail =>
      [{ st with client := some c },
       { st with client := some c, connected := true }]
  | .serveExit =>
      [{ st with client := some c },
       { st with client := some c, connected := true },
       { client := some c, connected := true, rx_char := some c },
       { client := some c, connected := false, rx_char := some c },
       { client := none, connected := false, rx_char := some c }]

/-- Final state of `connect_and_run`: the last observable state (or the
starting state when the session never assigned anything). -/
def connect_and_run (c : Nat) (st : BleState) (p : ExitPath) : BleState :=
  (sessionStates c st p).getLastD st

/-- Whether the exit path makes `connect_and_run` raise an exception into
`loop.run_until_complete` (rather than return normally). -/
def exitRaises : ExitPath → Bool
  | .scanTimeout => false
  | .connectFail => true
  | .notifyFail => true
  | .serveExit => false

/-! ### The supervisor loop `_run_loop`

Source (both files):
```
while True:
    try:
        self.loop.run_until_complete(self.connect_and_run())
    except Exception as e:
        print(f"[BLE] Exeption : {e}")
        self.loop.stop()
        break
```
A run of the loop is driven by the (finite prefix of the) sequence of exit
paths taken by the successive sessions.  `sessionsStarted ps` counts how many
sessions the loop starts while consuming `ps`; `loopTerminated ps` tells
whether the `break` was reached. -/

def sessionsStarted : List ExitPath → Nat
  | [] => 0
  | p :: rest => if exitRaises p then 1 else 1 + sessionsStarted rest

def loopTerminated : List ExitPath → Bool
  | [] => false
  | p :: rest => if exitRaises p then true else loopTerminated rest

/-! ### The send path

`send_data_sync` (main.py lines 116-124): if `not self.connected or not
self.rx_char`, print a diagnostic and return without doing anything;
otherwise submit `_send_data(msg)` to the transport loop.

`_send_data` (main.py lines 126-137): if `not self.rx_char or not
self.client`, return; otherwise encode the message, read `max_size` from the
characteristic, and `await client.write_gatt_char(...)` for each chunk of
`sliced(data, max_size)` in order.  A write that raises aborts the `for`
loop; the exception is captured by the discarded future and never touches
the manager state.

The model returns the list of write calls issued together with a flag
telling whether a write raised.  `fails i` is an oracle saying whether the
`i`-th write call of this message raises a transport error. -/

def writeLoop : List (List Char) → (Nat → Bool) → Nat → List (List Char) × Bool
  | [], _, _ => ([], false)
  | c :: rest, fails, i =>
      if fails i then ([c], true)
      else
        let r := writeLoop rest fails (i + 1)
        (c :: r.1, r.2)

def send_data (st : BleState) (msg : List Char) (maxSize : Nat)
    (fails : Nat → Bool) : List (List Char) × Bool :=
  if st.rx_char = none ∨ st.client = none then ([], false)
  else writeLoop (sliced msg maxSize) fails 0

/-- `send_data_sync`: the guard plus the submitted write work.  The result is
the (unchanged) manager state, the write calls issued on the transport
context, and the error flag of the submitted coroutine. -/
def send_data_sync (st : BleState) (msg : List Char) (maxSize : Nat)
    (fails : Nat → Bool) : BleState × List (List Char) × Bool :=
  if st.connected = false ∨ st.rx_char = none then (st, [], false)
  else (st, send_data st msg maxSize fails)

/-! ### Scan filters

main.py lines 68-76:
```
def match_hid_device(device, adv):
    if device.name and TARGET_BLE_NAME in device.name:
        print(...)
        if HID_SERVICE_UUID.lower() in [s.lower() for s in adv.service_uuids]:
            return True
    return False
device = await BleakScanner.find_device_by_filter(match_hid_device, timeout=10.0)
```
monitor_ble.py lines 116-122:
```
def match_nus_uuid(device, adv):
    if UART_SERVICE_UUID.lower() in adv.service_uuids:
        return True
    return False
device = await BleakScanner.find_device_by_filter(match_nus_uuid)
```
-/

def TARGET_BLE_NAME : List Char := "HID BLE Relay".data

def HID_SERVICE_UUID : List Char := "597f1290-5b99-477d-9261-f0ed801fc566".data

def UART_SERVICE_UUID : List Char := "597f1290-5b99-477d-9261-f0ed801fc566".data

def SCAN_TIMEOUT : ℚ := 10

/-- Python's `needle in haystack` substring test on strings. -/
def containsSub : List Char → List Char → Bool
  | [], needle => needle.isEmpty
  | a :: t, needle => needle.isPrefixOf (a :: t) || containsSub t needle

/-- Python's `str.lower()` (all protocol strings are ASCII). -/
def lowerStr (s : List Char) : List Char := s.map Char.toLower

def match_hid_device (name : Option (List Char))
    (service_uuids : List (List Char)) : Bool :=
  match name with
  | none => false
  | some nm =>
      if nm.isEmpty then false
      else if containsSub nm TARGET_BLE_NAME then
        if (service_uuids.map lowerStr).contains (lowerStr HID_SERVICE_UUID) then
          true
        else false
      else false

def match_nus_uuid (service_uuids : List (List Char)) : Bool :=
  if service_uuids.contains (lowerStr UART_SERVICE_UUID) then true else false

/-- C5 counterexample: the claim's filter characterization fails on
monitor_ble.py's `match_nus_uuid`.  A device whose name is `"x"` (which does
not contain the target-name substring) but advertises the service UUID in
lowercase is matched, and a device advertising the same UUID in uppercase
(equal under case-insensitive comparison) is not matched. -/
theorem match_nus_uuid_violates_claim :
    match_nus_uuid [UART_SERVICE_UUID] = true ∧
    containsSub ['x'] TARGET_BLE_NAME = false ∧
    match_nus_uuid ["597F1290-5B99-477D-9261-F0ED801FC566".data] = false ∧
    (["597F1290-5B99-477D-9261-F0ED801FC566".data].map lowerStr).contains
      (lowerStr UART_SERVICE_UUID) = true := by
  refine ⟨by decide, by decide, by decide, by decide⟩

/-- C5 amended: main.py's `match_hid_device` matches exactly when the
device name contains the target-name substring and the lowercased advertised
UUID list contains the (lowercase) service UUID, i.e. case-insensitive UUID
comparison; monitor_ble.py's `match_nus_uuid` instead matches exactly when
the advertised list contains the lowercase service UUID verbatim (no name
condition, advertised entries compared case-sensitively).  main.py's scan is
bounded by a 10-second timeout and a scan timeout makes `connect_and_run`
return normally with the manager state unchanged. -/
theorem scan_filter_spec (name : List Char) (uuids : List (List Char))
    (c : Nat) (st : BleState) :
    (match_hid_device (some name) uuids = true ↔
      (containsSub name TARGET_BLE_NAME = true ∧
       (uuids.map lowerStr).contains (lowerStr HID_SERVICE_UUID) = true)) ∧
    match_hid_device none uuids = false ∧
    (match_nus_uuid uuids = true ↔
      uuids.contains (lowerStr UART_SERVICE_UUID) = true) ∧
    SCAN_TIMEOUT = 10 ∧
    connect_and_run c st .scanTimeout = st ∧
    exitRaises .scanTimeout = false := by
  refine ⟨?_, rfl, ?_, rfl, rfl, rfl⟩
  · by_cases h2 : containsSub name TARGET_BLE_NAME = true
    · have h1 : name.isEmpty = false := by
        cases name with
        | nil => exact absurd h2 (by decide)
        | cons a t => rfl
      by_cases h3 :
          (uuids.map lowerStr).contains (lowerStr HID_SERVICE_UUID) = true
      · simp [match_hid_device, h1, h2, h3]
      · simp [match_hid_device, h1, h2, h3]
    · cases name with
      | nil => simp [match_hid_device, h2]
      | cons a t => simp [match_hid_device, h2]
  · simp only [match_nus_uuid]
    by_cases h : uuids.contains (lowerStr UART_SERVICE_UUID) = true
    · simp [h]
    · simp [h]

/-! ### Event encoders

Python's `hex(n)` for a non-negative `n` is `"0x"` followed by the minimal
lowercase hexadecimal digit string; `str(n)` (used by the f-string
interpolation of `pos_x`/`pos_y`) is the minimal decimal digit string, with
a leading `'-'` for negatives.  Both digit loops are realized with a fuel
bounded by the value itself (each step divides by the base, so `n + 1` steps
always suffice). -/

def natHexFuel : Nat → Nat → List Char
  | 0, _ => []
  | f + 1, n =>
      if n < 16 then [Nat.digitChar n]
      else natHexFuel f (n / 16) ++ [Nat.digitChar (n % 16)]

def natHex (n : Nat) : List Char := natHexFuel (n + 1) n

def pyHex (n : Nat) : List Char := '0' :: 'x' :: natHex n

def natToDecFuel : Nat → Nat → List Char
  | 0, _ => []
  | f + 1, n =>
      if n < 10 then [Nat.digitChar n]
      else natToDecFuel f (n / 10) ++ [Nat.digitChar (n % 10)]

def natToDec (n : Nat) : List Char := natToDecFuel (n + 1) n

def intToDec (i : Int) : List Char :=
  if i < 0 then '-' :: natToDec i.natAbs else natToDec i.toNat

/-- monitor_ble.py line 252: `f"P:{hex(event.key())}"`. -/
def keyPressMsgMonitor (k : Nat) : List Char := 'P' :: ':' :: pyHex k

/-- monitor_ble.py line 259: `f"R:{hex(event.key())}"`. -/
def keyReleaseMsgMonitor (k : Nat) : List Char := 'R' :: ':' :: pyHex k

/-- main.py line 183: `f"KP:{hex(event.key())}"`. -/
def keyPressMsgMain (k : Nat) : List Char := 'K' :: 'P' :: ':' :: pyHex k

/-- main.py line 187: `f"KR:{hex(event.key())}"`. -/
def keyReleaseMsgMain (k : Nat) : List Char := 'K' :: 'R' :: ':' :: pyHex k

/-- The pointer message layout `f"{tag}:{pos_x},{pos_y}"` shared by the
mouse handlers of main.py (lines 228, 232, 243, 246, 255). -/
def pointerMsg (tag : List Char) (x y : Int) : List Char :=
  tag ++ ':' :: (intToDec x ++ ',' :: intToDec y)

inductive MouseButton
  | left
  | right
  | other
  deriving DecidableEq

/-- main.py `mousePressEvent`: tag `ML` for the left button, `MR` for the
right button, no message otherwise. -/
def mousePressMsg : MouseButton → Int → Int → Option (List Char)
  | .left, x, y => some (pointerMsg ['M', 'L'] x y)
  | .right, x, y => some (pointerMsg ['M', 'R'] x y)
  | .other, _, _ => none

/-- main.py `mouseReleaseEvent`: tag `MS` for the left button, `ME` for the
right button. -/
def mouseReleaseMsg : MouseButton → Int → Int → Option (List Char)
  | .left, x, y => some (pointerMsg ['M', 'S'] x y)
  | .right, x, y => some (pointerMsg ['M', 'E'] x y)
  | .other, _, _ => none

/-- main.py `mouseMoveEvent`: always tag `ML`. -/
def mouseMoveMsg (x y : Int) : List Char := pointerMsg ['M', 'L'] x y

def lowercaseHexChars : List Char := "0123456789abcdef".data

theorem digitChar_lower_hex : ∀ d, d < 16 → Nat.digitChar d ∈ lowercaseHexChars := by
  decide

theorem natHexFuel_lower_hex :
    ∀ (f n : Nat), n < f → ∀ c ∈ natHexFuel f n, c ∈ lowercaseHexChars := by
  intro f
  induction f with
  | zero => intro n hn; omega
  | succ f ih =>
      intro n hn c hc
      by_cases h16 : n < 16
      · simp only [natHexFuel, h16, if_true, List.mem_singleton] at hc
        subst hc
        exact digitChar_lower_hex n h16
      · simp only [natHexFuel, h16, if_false, List.mem_append,
          List.mem_singleton] at hc
        rcases hc with hc | hc
        · exact ih (n / 16) (by omega) c hc
        · subst hc
          exact digitChar_lower_hex (n % 16) (Nat.mod_lt n (by omega))

/-- The ready manager state used by the concrete end-to-end computations:
connection handle `0` resolved, connected, RX characteristic of the same
connection cached. -/
def readyState : BleState := ⟨some 0, true, some 0⟩

/-- C7: for every key code `k`, the monitor_ble.py key-press encoding is the
press tag `P` followed by a colon and Python's lowercase hexadecimal
representation of `k` (and main.py's uses tag `KP` the same way); in
particular `keyDown(0x41)` encodes to the 6-byte string `"P:0x41"`, which
with a negotiated max write size of 20 bytes is chunked into exactly one
chunk delivered by a single successful write call. -/
theorem key_press_encoding_spec :
    (∀ k : Nat, keyPressMsgMonitor k = ['P'] ++ ':' :: pyHex k ∧
       keyPressMsgMain k = ['K', 'P'] ++ ':' :: pyHex k ∧
       pyHex k = '0' :: 'x' :: natHex k ∧
       (∀ c ∈ natHex k, c ∈ lowercaseHexChars)) ∧
    keyPressMsgMonitor 0x41 = ['P', ':', '0', 'x', '4', '1'] ∧
    (keyPressMsgMonitor 0x41).length = 6 ∧
    sliced (keyPressMsgMonitor 0x41) 20 = [['P', ':', '0', 'x', '4', '1']] ∧
    send_data readyState (keyPressMsgMonitor 0x41) 20 (fun _ => false) =
      ([['P', ':', '0', 'x', '4', '1']], false) := by
  refine ⟨?_, by decide, by decide, by decide, by decide⟩
  intro k
  exact ⟨rfl, rfl, rfl, natHexFuel_lower_hex (k + 1) k (Nat.lt_succ_self k)⟩

/-! ### Decoding the pointer payload

The receiver-side reading of a pointer message, from the spec of the wire
protocol: after the tag and the colon, the payload is two decimal integers
separated by a comma.  `parsePayload` splits at the first comma and parses
both parts as decimal naturals; `decodePointerPayload` drops the tag and the
colon first. -/

def isDecDigit (c : Char) : Bool := 48 ≤ c.toNat && c.toNat ≤ 57

def decVal (c : Char) : Nat := c.toNat - 48

def parseDec (l : List Char) : Option Nat :=
  if l.isEmpty || !(l.all isDecDigit) then none
  else some (l.foldl (fun a c => 10 * a + decVal c) 0)

def splitAtComma : List Char → Option (List Char × List Char)
  | [] => none
  | c :: rest =>
      if c = ',' then some ([], rest)
      else
        match splitAtComma rest with
        | none => none
        | some (a, b) => some (c :: a, b)

def parsePayload (s : List Char) : Option (Nat × Nat) :=
  match splitAtComma s with
  | none => none
  | some (a, b) =>
      match parseDec a, parseDec b with
      | some x, some y => some (x, y)
      | _, _ => none

def decodePointerPayload (tag : List Char) (s : List Char) : Option (Nat × Nat) :=
  parsePayload (s.drop (tag.length + 1))

theorem digitChar_decVal : ∀ d, d < 10 →
    isDecDigit (Nat.digitChar d) = true ∧ decVal (Nat.digitChar d) = d := by
  decide

theorem natToDecFuel_digits :
    ∀ (f n : Nat), n < f → (natToDecFuel f n).all isDecDigit = true := by
  intro f
  induction f with
  | zero => intro n hn; omega
  | succ f ih =>
      intro n hn
      by_cases h10 : n < 10
      · simp only [natToDecFuel, h10, if_true, List.all_cons, List.all_nil,
          Bool.and_true]
        exact (digitChar_decVal n h10).1
      · simp only [natToDecFuel, h10, if_false, List.all_append,
          List.all_cons, List.all_nil, Bool.and_true]
        exact Bool.and_eq_true_iff.mpr
          ⟨ih (n / 10) (by omega),
           (digitChar_decVal (n % 10) (Nat.mod_lt n (by omega))).1⟩

theorem natToDecFuel_ne_nil :
    ∀ (f n : Nat), n < f → natToDecFuel f n ≠ [] := by
  intro f n hn
  cases f with
  | zero => omega
  | succ f =>
      by_cases h10 : n < 10
      · simp [natToDecFuel, h10]
      · simp [natToDecFuel, h10]

theorem natToDecFuel_foldl :
    ∀ (f n a : Nat), n < f →
      (natToDecFuel f n).foldl (fun acc c => 10 * acc + decVal c) a =
        a * 10 ^ (natToDecFuel f n).length + n := by
  intro f
  induction f with
  | zero => intro n a hn; omega
  | succ f ih =>
      intro n a hn
      by_cases h10 : n < 10
      · simp only [natToDecFuel, h10, if_true, List.foldl_cons, List.foldl_nil,
          List.length_singleton, pow_one, (digitChar_decVal n h10).2]
        ring
      · have hrec : n / 10 < f := by omega
        simp only [natToDecFuel, h10, if_false, List.foldl_append,
          List.foldl_cons, List.foldl_nil, List.length_append,
          List.length_singleton]
        rw [ih (n / 10) a hrec, (digitChar_decVal (n % 10) (Nat.mod_lt n (by omega))).2]
        have hmod : 10 * (n / 10) + n % 10 = n := Nat.div_add_mod n 10
        rw [pow_succ]
        ring_nf
        omega

theorem parseDec_natToDec (n : Nat) : parseDec (natToDec n) = some n := by
  unfold parseDec natToDec
  have hne : natToDecFuel (n + 1) n ≠ [] :=
    natToDecFuel_ne_nil (n + 1) n (Nat.lt_succ_self n)
  have hdig := natToDecFuel_digits (n + 1) n (Nat.lt_succ_self n)
  have hempty : (natToDecFuel (n + 1) n).isEmpty = false := by
    cases h : natToDecFuel (n + 1) n with
    | nil => exact absurd h hne
    | cons a t => rfl
  rw [hempty, hdig]
  simp only [Bool.not_true, Bool.or_false]
  rw [if_neg (by simp)]
  rw [natToDecFuel_foldl (n + 1) n 0 (Nat.lt_succ_self n)]
  simp

theorem natToDec_no_comma (n : Nat) : ∀ c ∈ natToDec n, c ≠ ',' := by
  intro c hc hcomma
  have hdig := natToDecFuel_digits (n + 1) n (Nat.lt_succ_self n)
  have := List.all_eq_true.mp hdig c hc
  subst hcomma
  exact absurd this (by decide)

theorem splitAtComma_append (a b : List Char) (ha : ∀ c ∈ a, c ≠ ',') :
    splitAtComma (a ++ ',' :: b) = some (a, b) := by
  induction a with
  | nil => simp [splitAtComma]
  | cons c t ih =>
      have hc : c ≠ ',' := ha c (List.mem_cons_self c t)
      simp only [List.cons_append, splitAtComma, hc, if_false]
      rw [List.append_eq, ih (fun d hd => ha d (List.mem_cons_of_mem c hd))]

theorem drop_tag_colon (tag r : List Char) :
    (tag ++ ':' :: r).drop (tag.length + 1) = r := by
  induction tag with
  | nil => rfl
  | cons a t ih =>
      simp only [List.cons_append, List.length_cons, List.drop_succ_cons]
      exact ih

/-- C9: for all integers `0 ≤ x, y ≤ 32767`, each pointer event encodes as
its tag (`ML` for left-button down and for move, `MR` for right-button down,
`MS` for left-button up, `ME` for right-button up) followed by a colon and
the decimal representations of `x` and `y` separated by a comma, and parsing
the two comma-separated integers back from the payload recovers exactly
`(x, y)`. -/
theorem pointer_encoding_roundtrip (x y : Int)
    (hx0 : 0 ≤ x) (hx1 : x ≤ 32767) (hy0 : 0 ≤ y) (hy1 : y ≤ 32767) :
    mousePressMsg .left x y = some (pointerMsg ['M', 'L'] x y) ∧
    mouseMoveMsg x y = pointerMsg ['M', 'L'] x y ∧
    mousePressMsg .right x y = some (pointerMsg ['M', 'R'] x y) ∧
    mouseReleaseMsg .left x y = some (pointerMsg ['M', 'S'] x y) ∧
    mouseReleaseMsg .right x y = some (pointerMsg ['M', 'E'] x y) ∧
    (∀ tag : List Char,
       pointerMsg tag x y = tag ++ ':' :: (intToDec x ++ ',' :: intToDec y) ∧
       decodePointerPayload tag (pointerMsg tag x y) = some (x.toNat, y.toNat)) := by
  refine ⟨rfl, rfl, rfl, rfl, rfl, ?_⟩
  intro tag
  refine ⟨rfl, ?_⟩
  unfold decodePointerPayload pointerMsg
  rw [drop_tag_colon]
  have hxd : intToDec x = natToDec x.toNat := by
    unfold intToDec
    rw [if_neg (not_lt.mpr hx0)]
  have hyd : intToDec y = natToDec y.toNat := by
    unfold intToDec
    rw [if_neg (not_lt.mpr hy0)]
  simp only [parsePayload, hxd, hyd,
    splitAtComma_append _ _ (natToDec_no_comma x.toNat), parseDec_natToDec]

theorem pointer_encoding_roundtrip_witness :
    (0 : Int) ≤ 12345 ∧ (12345 : Int) ≤ 32767 ∧
    (0 : Int) ≤ 32767 ∧ (32767 : Int) ≤ 32767 ∧
    (mousePressMsg .left 12345 32767 = some (pointerMsg ['M', 'L'] 12345 32767) ∧
     mouseMoveMsg 12345 32767 = pointerMsg ['M', 'L'] 12345 32767 ∧
     mousePressMsg .right 12345 32767 = some (pointerMsg ['M', 'R'] 12345 32767) ∧
     mouseReleaseMsg .left 12345 32767 = some (pointerMsg ['M', 'S'] 12345 32767) ∧
     mouseReleaseMsg .right 12345 32767 = some (pointerMsg ['M', 'E'] 12345 32767) ∧
     (∀ tag : List Char,
        pointerMsg tag 12345 32767 =
          tag ++ ':' :: (intToDec 12345 ++ ',' :: intToDec 32767) ∧
        decodePointerPayload tag (pointerMsg tag 12345 32767) =
          some ((12345 : Int).toNat, (32767 : Int).toNat))) :=
  ⟨by decide, by decide, by decide, by decide,
   pointer_encoding_roundtrip 12345 32767 (by decide) (by decide) (by decide)
     (by decide)⟩

/-! ### Coordinate normalization

main.py `mousePressEvent` (lines 217-221, identically in the release and
move handlers):
```
x_fs, y_fx, width, height, rw, rh = self.get_video_display_rect()
pos_x = int((event.pos().x() - x_fs)/width*32767)
pos_y = int((event.pos().y() - y_fx)/height*32767)
```
The arithmetic runs on Python floats; it is modelled with exact rationals.
`int()` on a float truncates toward zero. -/

def pyInt (q : ℚ) : ℤ := if 0 ≤ q then ⌊q⌋ else ⌈q⌉

def norm_coord (p o len : ℤ) : ℤ :=
  pyInt (((p : ℚ) - (o : ℚ)) / (len : ℚ) * 32767)

/-- Modelled from the spec: the claim's normalization
`round((px-ox)/w*32767)`, for comparison with the source's `norm_coord`. -/
def spec_round_coord (p o len : ℤ) : ℤ :=
  round (((p : ℚ) - (o : ℚ)) / (len : ℚ) * 32767)

/-- C4 counterexample: with display rectangle offset 0 and width 3 and raw
pointer x-coordinate 2 (inside the rectangle), the code truncates
`2/3*32767 = 21844.67` to `21844`, while the claimed `round` gives `21845`. -/
theorem norm_coord_not_round :
    norm_coord 2 0 3 = 21844 ∧
    spec_round_coord 2 0 3 = 21845 ∧
    norm_coord 2 0 3 ≠ spec_round_coord 2 0 3 := by
  have h1 : norm_coord 2 0 3 = 21844 := by
    unfold norm_coord pyInt
    rw [if_pos (by norm_num)]
    have : (((2 : ℤ) : ℚ) - ((0 : ℤ) : ℚ)) / ((3 : ℤ) : ℚ) * 32767 = 65534 / 3 := by
      norm_num
    rw [this, Int.floor_eq_iff]
    norm_num
  have h2 : spec_round_coord 2 0 3 = 21845 := by
    unfold spec_round_coord
    have : (((2 : ℤ) : ℚ) - ((0 : ℤ) : ℚ)) / ((3 : ℤ) : ℚ) * 32767 = 65534 / 3 := by
      norm_num
    rw [this, round_eq, Int.floor_eq_iff]
    norm_num
  exact ⟨h1, h2, by rw [h1, h2]; decide⟩

/-- C4 amended: for a display rectangle with positive width `w` and offset
`ox`, and a raw x-coordinate `px` inside the rectangle (`ox ≤ px ≤ ox + w`),
the coordinate the code sends is the *truncation* `⌊(px-ox)*32767/w⌋`, not
the rounding; it always lies in `[0, 32767]` for in-rectangle inputs, so no
clamping is performed or needed (the same function is applied to `py` with
`oy`, `h`). -/
theorem norm_coord_spec (px ox w : ℤ) (hw : 0 < w) (h1 : ox ≤ px)
    (h2 : px ≤ ox + w) :
    norm_coord px ox w = ⌊(((px : ℚ) - (ox : ℚ)) * 32767) / (w : ℚ)⌋ ∧
    0 ≤ norm_coord px ox w ∧ norm_coord px ox w ≤ 32767 := by
  have hwq : (0 : ℚ) < (w : ℚ) := by exact_mod_cast hw
  have hnum : (0 : ℚ) ≤ (px : ℚ) - (ox : ℚ) := by
    have : ((ox : ℚ)) ≤ (px : ℚ) := by exact_mod_cast h1
    linarith
  have hq : ((px : ℚ) - (ox : ℚ)) / (w : ℚ) * 32767 =
      (((px : ℚ) - (ox : ℚ)) * 32767) / (w : ℚ) := by
    field_simp
  have hq0 : (0 : ℚ) ≤ ((px : ℚ) - (ox : ℚ)) / (w : ℚ) * 32767 := by
    have := div_nonneg hnum (le_of_lt hwq)
    nlinarith
  have hform : norm_coord px ox w = ⌊(((px : ℚ) - (ox : ℚ)) * 32767) / (w : ℚ)⌋ := by
    unfold norm_coord pyInt
    rw [if_pos hq0, hq]
  refine ⟨hform, ?_, ?_⟩
  · rw [hform]
    exact Int.le_floor.mpr (by rw [← hq]; exact_mod_cast hq0)
  · rw [hform]
    have hle : (((px : ℚ) - (ox : ℚ)) * 32767) / (w : ℚ) ≤ 32767 := by
      rw [div_le_iff₀ hwq]
      have hub : (px : ℚ) - (ox : ℚ) ≤ (w : ℚ) := by
        have : (px : ℚ) ≤ (ox : ℚ) + (w : ℚ) := by exact_mod_cast h2
        linarith
      nlinarith
    calc ⌊(((px : ℚ) - (ox : ℚ)) * 32767) / (w : ℚ)⌋
        ≤ ⌊(32767 : ℚ)⌋ := Int.floor_le_floor hle
      _ = 32767 := by norm_num

theorem norm_coord_spec_witness :
    (0 : ℤ) < 3 ∧ (0 : ℤ) ≤ 2 ∧ (2 : ℤ) ≤ 0 + 3 ∧
    (norm_coord 2 0 3 = ⌊(((2 : ℤ) : ℚ) - ((0 : ℤ) : ℚ)) * 32767 / ((3 : ℤ) : ℚ)⌋ ∧
     0 ≤ norm_coord 2 0 3 ∧ norm_coord 2 0 3 ≤ 32767) :=
  ⟨by decide, by decide, by decide,
   norm_coord_spec 2 0 3 (by decide) (by decide) (by decide)⟩

/-! ### C2: the supervisor loop -/

/-- C2 counterexample: a session that exits by raising an exception — e.g. a
connect failure, where `async with BleakClient(...)` raises `BleakError` —
is caught by `except Exception` in `_run_loop`, which stops the event loop
and executes `break`: the loop terminates and the next session is never
started (only 1 session is started out of the 2 scheduled exit paths). -/
theorem run_loop_fatal_on_exception :
    exitRaises ExitPath.connectFail = true ∧
    loopTerminated [ExitPath.connectFail] = true ∧
    sessionsStarted [ExitPath.connectFail, ExitPath.scanTimeout] = 1 := by
  decide

/-- C2 amended: the supervisor loop restarts a new session after every
*normal* session return (scan timeout, or a serve-phase exit whose
cancellation is swallowed by `except asyncio.CancelledError`), but any
session that exits by raising an exception (e.g. connect failure) makes
`_run_loop` stop the event loop and `break`: an exception exit is treated as
fatal and ends the loop. -/
theorem loopTerminated_cons_false {q : ExitPath} {rest : List ExitPath}
    (hq : exitRaises q = false) :
    loopTerminated (q :: rest) = loopTerminated rest := by
  simp [loopTerminated, hq]

theorem sessionsStarted_cons_false {q : ExitPath} {rest : List ExitPath}
    (hq : exitRaises q = false) :
    sessionsStarted (q :: rest) = 1 + sessionsStarted rest := by
  simp [sessionsStarted, hq]

theorem run_loop_restart_spec (pre post : List ExitPath) (p : ExitPath)
    (hpre : ∀ q ∈ pre, exitRaises q = false) :
    (loopTerminated pre = false ∧ sessionsStarted pre = pre.length) ∧
    (exitRaises p = true →
      loopTerminated (pre ++ p :: post) = true ∧
      sessionsStarted (pre ++ p :: post) = pre.length + 1) := by
  induction pre with
  | nil =>
      refine ⟨⟨rfl, rfl⟩, fun hp => ?_⟩
      simp [loopTerminated, sessionsStarted, hp]
  | cons q rest ih =>
      have hq : exitRaises q = false := hpre q (List.mem_cons_self q rest)
      have hrest : ∀ r ∈ rest, exitRaises r = false :=
        fun r hr => hpre r (List.mem_cons_of_mem q hr)
      obtain ⟨⟨hterm, hcount⟩, hfat⟩ := ih hrest
      refine ⟨⟨?_, ?_⟩, fun hp => ?_⟩
      · rw [loopTerminated_cons_false hq]
        exact hterm
      · rw [sessionsStarted_cons_false hq, hcount, List.length_cons]
        omega
      · obtain ⟨hterm2, hcount2⟩ := hfat hp
        refine ⟨?_, ?_⟩
        · rw [List.cons_append, loopTerminated_cons_false hq]
          exact hterm2
        · rw [List.cons_append, sessionsStarted_cons_false hq, hcount2,
            List.length_cons]
          omega

theorem run_loop_restart_spec_witness :
    (∀ q ∈ [ExitPath.scanTimeout, ExitPath.serveExit], exitRaises q = false) ∧
    ((loopTerminated [ExitPath.scanTimeout, ExitPath.serveExit] = false ∧
      sessionsStarted [ExitPath.scanTimeout, ExitPath.serveExit] =
        [ExitPath.scanTimeout, ExitPath.serveExit].length) ∧
     (exitRaises ExitPath.connectFail = true →
       loopTerminated ([ExitPath.scanTimeout, ExitPath.serveExit] ++
         ExitPath.connectFail :: [ExitPath.scanTimeout]) = true ∧
       sessionsStarted ([ExitPath.scanTimeout, ExitPath.serveExit] ++
         ExitPath.connectFail :: [ExitPath.scanTimeout]) =
         [ExitPath.scanTimeout, ExitPath.serveExit].length + 1)) :=
  ⟨by decide,
   run_loop_restart_spec [ExitPath.scanTimeout, ExitPath.serveExit]
     [ExitPath.scanTimeout] ExitPath.connectFail (by decide)⟩

/-! ### C3: session teardown -/

/-- C3 counterexample: a session with connection handle 7 starting from the
initial state and exiting through the serve phase (disconnect event or
cancellation) ends with `client = None` and `connected = False`, but
`rx_char` still refers to connection 7's characteristic — the `finally`
block never resets `self.rx_char`.  Moreover an error exit between connect
and the serve loop (`notifyFail`) skips the `finally` entirely, leaving even
`connected = True` and the client set. -/
theorem teardown_keeps_rx_char :
    connect_and_run 7 initBleState ExitPath.serveExit =
      { client := none, connected := false, rx_char := some 7 } ∧
    (connect_and_run 7 initBleState ExitPath.serveExit).rx_char = some 7 ∧
    (connect_and_run 7 initBleState ExitPath.notifyFail).connected = true ∧
    (connect_and_run 7 initBleState ExitPath.notifyFail).client = some 7 := by
  decide

/-- C3 amended: on a serve-phase exit (disconnect event or cancellation) the
teardown block runs and afterwards the connection handle is released
(`client = none`) and the state is disconnected (`connected = false`), but
the write-characteristic reference is *not* invalidated: `rx_char` still
holds the old connection's characteristic.  On an error exit after
connecting but before the serve loop (`notifyFail`), teardown does not run
at all: `connected` stays `true` and `client` stays set. -/
theorem session_teardown_spec (c : Nat) (st : BleState) :
    connect_and_run c st ExitPath.serveExit =
      { client := none, connected := false, rx_char := some c } ∧
    connect_and_run c st ExitPath.notifyFail =
      { st with client := some c, connected := true } := by
  exact ⟨rfl, rfl⟩

/-! ### C6: submit while not Ready is a no-op -/

/-- C6: `send_data_sync` called while the manager is not connected or the
write characteristic is unresolved issues no write call, raises nothing
(error flag `false`), and leaves the manager state unchanged; the message is
not retained anywhere (the model's only effect channel is the returned write
list, which is empty).  The `print` diagnostic is the only unmodelled
effect. -/
theorem send_not_ready_noop (st : BleState) (msg : List Char) (maxSize : Nat)
    (fails : Nat → Bool) (h : st.connected = false ∨ st.rx_char = none) :
    send_data_sync st msg maxSize fails = (st, [], false) := by
  unfold send_data_sync
  rw [if_pos h]

theorem send_not_ready_noop_witness :
    ((⟨some 0, false, some 0⟩ : BleState).connected = false ∨
      (⟨some 0, false, some 0⟩ : BleState).rx_char = none) ∧
    send_data_sync ⟨some 0, false, some 0⟩ ('P' :: ':' :: pyHex 65) 20
      (fun _ => false) = (⟨some 0, false, some 0⟩, [], false) :=
  ⟨Or.inl rfl,
   send_not_ready_noop ⟨some 0, false, some 0⟩ ('P' :: ':' :: pyHex 65) 20
     (fun _ => false) (Or.inl rfl)⟩

/-! ### C8: a failed write aborts the remaining chunks of its message -/

theorem writeLoop_fail :
    ∀ (chunks : List (List Char)) (fails : Nat → Bool) (k i : Nat),
      i < chunks.length → fails (k + i) = true →
      (∀ j < i, fails (k + j) = false) →
      writeLoop chunks fails k = (chunks.take (i + 1), true) := by
  intro chunks
  induction chunks with
  | nil => intro fails k i hi; cases hi
  | cons c rest ih =>
      intro fails k i hi hfail hbefore
      cases i with
      | zero =>
          have hk : fails k = true := by simpa using hfail
          simp [writeLoop, hk]
      | succ i =>
          have hk : fails k = false := by
            have := hbefore 0 (Nat.succ_pos i)
            simpa using this
          have hrec : writeLoop rest fails (k + 1) = (rest.take (i + 1), true) := by
            apply ih fails (k + 1) i
            · exact Nat.lt_of_succ_lt_succ hi
            · have : k + 1 + i = k + (i + 1) := by omega
              rw [this]
              exact hfail
            · intro j hj
              have : k + 1 + j = k + (j + 1) := by omega
              rw [this]
              exact hbefore (j + 1) (Nat.succ_lt_succ hj)
          simp [writeLoop, hk, hrec, List.take_succ_cons]

/-- C8: when the manager is ready and the write of chunk `i` (0-based) of a
message fails while all earlier writes succeed, the write calls issued are
exactly the first `i + 1` chunks in order — chunks after the failing one are
never written and no chunk is issued twice — the error flag is raised only
into the discarded future, and the manager state is returned unchanged
(`connected` stays `true`, `client` stays set): the failure itself tears
nothing down. -/
theorem write_failure_aborts (st : BleState) (msg : List Char) (maxSize : Nat)
    (fails : Nat → Bool) (i : Nat)
    (hconn : st.connected = true) (hrx : st.rx_char ≠ none)
    (hclient : st.client ≠ none)
    (hi : i < (sliced msg maxSize).length)
    (hfail : fails i = true) (hbefore : ∀ j < i, fails j = false) :
    send_data st msg maxSize fails = ((sliced msg maxSize).take (i + 1), true) ∧
    send_data_sync st msg maxSize fails =
      (st, (sliced msg maxSize).take (i + 1), true) := by
  have hguard : ¬(st.rx_char = none ∨ st.client = none) := by
    intro h
    rcases h with h | h
    · exact hrx h
    · exact hclient h
  have hsend : send_data st msg maxSize fails =
      ((sliced msg maxSize).take (i + 1), true) := by
    unfold send_data
    rw [if_neg hguard]
    apply writeLoop_fail (sliced msg maxSize) fails 0 i hi
    · simpa using hfail
    · intro j hj
      simpa using hbefore j hj
  refine ⟨hsend, ?_⟩
  unfold send_data_sync
  rw [if_neg ?_, hsend]
  intro h
  rcases h with h | h
  · rw [hconn] at h
    cases h
  · exact hrx h

theorem write_failure_aborts_witness :
    readyState.connected = true ∧ readyState.rx_char ≠ none ∧
    readyState.client ≠ none ∧
    1 < (sliced (List.replicate 45 'a') 20).length ∧
    (fun j => j == 1) 1 = true ∧
    (∀ j < 1, (fun j => j == 1) j = false) ∧
    (send_data readyState (List.replicate 45 'a') 20 (fun j => j == 1) =
       ((sliced (List.replicate 45 'a') 20).take 2, true) ∧
     send_data_sync readyState (List.replicate 45 'a') 20 (fun j => j == 1) =
       (readyState, (sliced (List.replicate 45 'a') 20).take 2, true)) :=
  ⟨rfl, by decide, by decide, by decide, rfl, by decide,
   write_failure_aborts readyState (List.replicate 45 'a') 20 (fun j => j == 1)
     1 rfl (by decide) (by decide) (by decide) rfl (by decide)⟩

/-! ### C10: `connected = True` implies `client` is set -/

/-- The invariant implicit in the assignment order of `connect_and_run`:
whenever `connected` reads `True`, `client` is not `None`. -/
def BleInv (st : BleState) : Prop := st.connected = true → st.client ≠ none

theorem sessionStates_inv (c : Nat) (st : BleState) (p : ExitPath) :
    ∀ s ∈ sessionStates c st p, BleInv s := by
  cases p with
  | scanTimeout => intro s hs; cases hs
  | connectFail => intro s hs; cases hs
  | notifyFail =>
      intro s hs
      simp only [sessionStates, List.mem_cons, List.not_mem_nil, or_false] at hs
      rcases hs with rfl | rfl
      · intro _; simp
      · intro _; simp
  | serveExit =>
      intro s hs
      simp only [sessionStates, List.mem_cons, List.not_mem_nil, or_false] at hs
      rcases hs with rfl | rfl | rfl | rfl | rfl
      · intro _; simp
      · intro _; simp
      · intro _; simp
      · intro h; cases h
      · intro h; cases h

theorem connect_and_run_inv (c : Nat) (st : BleState) (p : ExitPath)
    (hst : BleInv st) : BleInv (connect_and_run c st p) := by
  cases p with
  | scanTimeout => exact hst
  | connectFail => exact hst
  | notifyFail => intro _; simp [connect_and_run, sessionStates]
  | serveExit => intro h; cases h

/-- The observable manager states along a whole supervisor run: the state at
each session start, every intermediate state the session's assignments
produce, and so on for each scheduled session (with its fresh connection
identifier and exit path). -/
def supervisorTrace (st : BleState) : List (Nat × ExitPath) → List BleState
  | [] => [st]
  | (c, p) :: rest =>
      st :: (sessionStates c st p ++ supervisorTrace (connect_and_run c st p) rest)

/-- C10: at every observable point of the manager's execution — any prefix
of sessions run by the supervisor, interleaved at every assignment boundary
of `connect_and_run` — `connected = true` implies `client ≠ none`: the
client is assigned before the connected flag is set on connect, and the flag
is cleared before the client is released in teardown. -/
theorem connected_implies_client (runs : List (Nat × ExitPath)) (st : BleState)
    (hst : BleInv st) : ∀ s ∈ supervisorTrace st runs, BleInv s := by
  induction runs generalizing st with
  | nil =>
      intro s hs
      rcases List.mem_singleton.mp hs with rfl
      exact hst
  | cons run rest ih =>
      obtain ⟨c, p⟩ := run
      intro s hs
      rcases List.mem_cons.mp hs with rfl | hs
      · exact hst
      · rcases List.mem_append.mp hs with hs | hs
        · exact sessionStates_inv c st p s hs
        · exact ih (connect_and_run c st p) (connect_and_run_inv c st p hst) s hs

theorem connected_implies_client_witness :
    BleInv initBleState ∧
    (∀ s ∈ supervisorTrace initBleState
        [(0, ExitPath.serveExit), (1, ExitPath.connectFail)], BleInv s) :=
  ⟨fun h => absurd h Bool.false_ne_true,
   connected_implies_client [(0, ExitPath.serveExit), (1, ExitPath.connectFail)]
     initBleState (fun h => absurd h Bool.false_ne_true)⟩
